import Mathlib

/-!
Verification of the feature reconciliation engine in
`agstools/feature_importer.py` (class `FeatureImporter`).

Records fetched from a feature store are JSON objects whose `attributes`
member is a dictionary from field name to scalar value.  We embed Python
dictionaries as association lists with Python insertion semantics: writing
to an existing key updates the value in place (keeping the key position),
writing a fresh key appends it at the end.  Machinery that lives in this
repository but outside `feature_importer.py` (the `AttributeMapper` and
`FeatureProcessor` classes, `merge_dicts`, and the `FeatureLayer` remote
store client) is modelled from the specification; each such definition
carries a doc comment saying so.
-/

/-- A scalar attribute value as found in a feature record
(JSON numbers and strings). -/
inductive Value where
  | intV : Int → Value
  | strV : String → Value
deriving DecidableEq, Repr

/-- First-match lookup in an association list.  Python dictionaries have
unique keys, so first match coincides with the only match. -/
def dlookup {α β : Type} [DecidableEq α] : List (α × β) → α → Option β
  | [], _ => none
  | (k2, v) :: rest, k => if k2 = k then some v else dlookup rest k

/-- Python dictionary write `d[k] = v`: if the key is present its value is
updated in place (every entry carrying the key, of which a dictionary has
exactly one, is overwritten), otherwise the pair is appended at the end. -/
def dinsert {α β : Type} [DecidableEq α] (d : List (α × β)) (k : α) (v : β) :
    List (α × β) :=
  if k ∈ d.map Prod.fst then
    d.map (fun p => if p.1 = k then (k, v) else p)
  else d ++ [(k, v)]

/-- Python `k in d` membership test on a dictionary. -/
def dcontains {α β : Type} [DecidableEq α] (d : List (α × β)) (k : α) : Bool :=
  decide (k ∈ d.map Prod.fst)

/-- A feature record: the `attributes` dictionary of one JSON feature. -/
structure Feature where
  attributes : List (String × Value)
deriving DecidableEq, Repr

/-- Python `f['attributes'][name]`.  The embedding totalises the lookup
with a default; theorems only depend on it at keys that are present. -/
def Feature.get (f : Feature) (name : String) : Value :=
  (dlookup f.attributes name).getD (Value.strV "")

/-- Keep only the attributes whose field name occurs in `fields`
(order of the surviving attributes is preserved). -/
def restrictFeature (f : Feature) (fields : List String) : Feature :=
  ⟨f.attributes.filter (fun p => decide (p.1 ∈ fields))⟩

/-- The state of one remote feature layer: its schema field names, the
name of its object-id field, the stored records, and the next fresh
object id the store will assign. -/
structure LayerState where
  fields : List String
  objectIdField : String
  features : List Feature
  nextOid : Int
deriving DecidableEq, Repr

/-- Modelled from the spec: `FeatureLayer.query_features_batch` lives in
`agstools/feature_layer.py`, which is not under src/.  Per the spec the
batch query returns every stored record (unrestricted `1=1` filter)
carrying the requested `outFields` plus the internal object-id field,
which downstream code reads off every returned record. -/
def query_features_batch (layer : LayerState) (outFields : List String) :
    List Feature :=
  layer.features.map
    (fun f => restrictFeature f (outFields ++ [layer.objectIdField]))

/-- Modelled from the spec: `FeatureLayer.add_features_batch` is not under
src/.  Per the spec the batch insert appends the given records to the
store and assigns each a fresh internal object id. -/
def add_features_batch (layer : LayerState) (newFeatures : List Feature) :
    LayerState :=
  { layer with
    features := layer.features ++
      newFeatures.enum.map
        (fun p => ⟨dinsert p.2.attributes layer.objectIdField
                     (Value.intV (layer.nextOid + p.1))⟩),
    nextOid := layer.nextOid + newFeatures.length }

/-- Modelled from the spec: `FeatureLayer.delete_features` is not under
src/.  Per the spec the batch delete removes every stored record whose
internal object id occurs in the given id list. -/
def delete_features (layer : LayerState) (oids : List Value) : LayerState :=
  { layer with
    features := layer.features.filter
      (fun f => !(decide (f.get layer.objectIdField ∈ oids))) }

/-- Modelled from the spec: `merge_dicts` lives in `agstools/utility.py`,
which is not under src/.  Per the spec it returns a new dictionary with
all of the first argument entries overridden by any key also present in
the second argument. -/
def merge_dicts (a b : List (String × String)) : List (String × String) :=
  b.foldl (fun d p => dinsert d p.1 p.2) a

/-- Modelled from the spec: `FeatureProcessor.replace_attributes` lives in
`agstools/feature_processor.py`, which is not under src/.  Per the spec it
renames the attribute keys of a record through the given name map; keys
absent from the map are dropped. -/
def feature_replace_attributes (nameMap : List (String × String))
    (f : Feature) : Feature :=
  ⟨f.attributes.filterMap
    (fun p => (dlookup nameMap p.1).map (fun k2 => (k2, p.2)))⟩

/-- Modelled from the spec: `FeatureProcessor.remove_attributes` is not
under src/.  Per the spec it deletes the listed attribute names from a
record when present; absent names are a no-op. -/
def feature_remove_attributes (names : List String) (f : Feature) : Feature :=
  ⟨f.attributes.filter (fun p => !(decide (p.1 ∈ names)))⟩

/-- The value passed to the `FeatureImporter` constructor for
`custom_attr_mapper`: the Python `None` default, an `AttributeMapper`
instance (represented by its attribute map), or some other Python value
such as a plain dictionary or an arbitrary object. -/
inductive MapperArg where
  | noneArg : MapperArg
  | dictArg : List (String × String) → MapperArg
  | mapperArg : List (String × String) → MapperArg
  | otherArg : String → MapperArg
deriving DecidableEq, Repr

/-- The `isinstance(custom_attr_mapper, AttributeMapper)` test. -/
def isAttributeMapperInst : MapperArg → Bool
  | .mapperArg _ => true
  | _ => false

/-- The constructor line
`custom_attr_mapper if isinstance(custom_attr_mapper, AttributeMapper) else AttributeMapper()`;
modelled from the spec in one respect: `AttributeMapper` is not under
src/, and a freshly constructed mapper is modelled as carrying an empty
attribute map (entries enter only through `add_mapping`). -/
def resolve_cust_mapper (a : MapperArg) : List (String × String) :=
  match a with
  | .mapperArg m => m
  | _ => []

/-- One side of the feature comparison state: the uid-to-oid index and
the matched and unmatched record lists. -/
structure CompSide where
  index : List (Value × Value)
  matched : List Feature
  unmatched : List Feature
deriving DecidableEq, Repr

/-- Both sides of the feature comparison state. -/
structure CompFeatures where
  src : CompSide
  tgt : CompSide
deriving DecidableEq, Repr

/-- The empty comparison state assigned by the constructor and by
`__reset_comp_features`. -/
def empty_comp_features : CompFeatures :=
  { src := { index := [], matched := [], unmatched := [] },
    tgt := { index := [], matched := [], unmatched := [] } }

/-- The state of a `FeatureImporter` instance. -/
structure FeatureImporter where
  src_feat_layer : LayerState
  tgt_feat_layer : LayerState
  cust_attr_map : List (String × String)
  auto_attr_map : List (String × String)
  comp_features : CompFeatures
deriving DecidableEq, Repr

/-- `FeatureImporter.__build_auto_attr_mapper`: identity mappings for
every field name present in both schemas.  The Python set intersection is
unordered; we enumerate the distinct common names in source-schema order.
`add_mapping` (from `AttributeMapper`, not under src/) is modelled from
the spec as a dictionary write inserting or overwriting one entry. -/
def build_auto_attr_mapper (srcFields tgtFields : List String) :
    List (String × String) :=
  ((srcFields.filter (fun f => decide (f ∈ tgtFields))).dedup).foldl
    (fun m f => dinsert m f f) []

/-- `FeatureImporter.__init__`. -/
def feature_importer_init (src tgt : LayerState) (custom : MapperArg) :
    FeatureImporter :=
  { src_feat_layer := src
    tgt_feat_layer := tgt
    cust_attr_map := resolve_cust_mapper custom
    auto_attr_map := build_auto_attr_mapper src.fields tgt.fields
    comp_features := empty_comp_features }

/-- `FeatureImporter.__get_attr_map`: the effective attribute map, custom
entries overriding automatic ones. -/
def get_attr_map (imp : FeatureImporter) : List (String × String) :=
  merge_dicts imp.auto_attr_map imp.cust_attr_map

/-- Lexicographic strictly-less comparison of two character lists by code
point, as Python compares strings. -/
def charListLt : List Char → List Char → Bool
  | _, [] => false
  | [], _ :: _ => true
  | a :: as, b :: bs =>
      if a < b then true else if b < a then false else charListLt as bs

/-- Python `a < b` on strings: lexicographic by code point. -/
def strLt (a b : String) : Bool :=
  charListLt a.data b.data

/-- Python `a <= b` on strings. -/
def strLe (a b : String) : Bool :=
  strLt a b || a == b

/-- The ordering used by Python `sorted` on the items of an attribute
map: lexicographic comparison of `(key, value)` string pairs. -/
def pairLe (p q : String × String) : Bool :=
  strLt p.1 q.1 || (p.1 == q.1 && strLe p.2 q.2)

/-- Insert a pair into a `pairLe`-sorted list, keeping it sorted. -/
def insertPair (p : String × String) :
    List (String × String) → List (String × String)
  | [] => [p]
  | q :: rest => if pairLe p q then p :: q :: rest else q :: insertPair p rest

/-- Python `sorted(attr_map.items())`: the items of the map in ascending
lexicographic order, here by insertion sort. -/
def sortPairs (l : List (String × String)) : List (String × String) :=
  l.foldr insertPair []

/-- Line 84-87 of `feature_importer.py`: the dictionary comprehension
building a feature index with the uid field value as key and the oid
field value as value (later records overwrite earlier ones on a
duplicate uid). -/
def build_feature_index (fs : List Feature) (uidField oidField : String) :
    List (Value × Value) :=
  fs.foldl (fun d f => dinsert d (f.get uidField) (f.get oidField)) []

/-- Lines 84-97 of `feature_importer.py`: given the two fetched record
sets, build both indexes and classify every record as matched or
unmatched by membership of its uid value in the opposite index. -/
def comp_features_of (srcFeatures tgtFeatures : List Feature)
    (srcUid tgtUid srcOid tgtOid : String) : CompFeatures :=
  let srcIndex := build_feature_index srcFeatures srcUid srcOid
  let tgtIndex := build_feature_index tgtFeatures tgtUid tgtOid
  { src := { index := srcIndex
             matched := srcFeatures.filter
               (fun f => dcontains tgtIndex (f.get srcUid))
             unmatched := srcFeatures.filter
               (fun f => !(dcontains tgtIndex (f.get srcUid))) }
    tgt := { index := tgtIndex
             matched := tgtFeatures.filter
               (fun f => dcontains srcIndex (f.get tgtUid))
             unmatched := tgtFeatures.filter
               (fun f => !(dcontains srcIndex (f.get tgtUid))) } }

/-- One remote call issued by the engine against the two stores. -/
inductive ExtCall where
  | querySrc : List String → ExtCall
  | queryTgt : List String → ExtCall
  | addTgt : List Feature → ExtCall
  | deleteSrc : List Value → ExtCall
deriving DecidableEq, Repr

/-- The outcome of running one engine method: the updated importer state,
the remote calls issued in order, and whether the method returned
normally (`ok := false` when the modelled insert raised and the method
aborted by propagating the exception). -/
structure StepResult where
  state : FeatureImporter
  calls : List ExtCall
  ok : Bool
deriving DecidableEq, Repr

/-- `FeatureImporter.__comp_features`: discard the previous comparison
state, compute the effective attribute map, query both layers for the
sorted map keys (source) and values (target), and store the fresh
comparison result. -/
def comp_features_run (imp : FeatureImporter) (srcUid tgtUid : String) :
    StepResult :=
  let s0 := { imp with comp_features := empty_comp_features }
  let attrMap := get_attr_map s0
  let srcOidField := s0.src_feat_layer.objectIdField
  let tgtOidField := s0.tgt_feat_layer.objectIdField
  let items := sortPairs attrMap
  let srcAttr := items.map Prod.fst
  let tgtAttr := items.map Prod.snd
  let srcFeatures := query_features_batch s0.src_feat_layer srcAttr
  let tgtFeatures := query_features_batch s0.tgt_feat_layer tgtAttr
  let comp := comp_features_of srcFeatures tgtFeatures srcUid tgtUid
    srcOidField tgtOidField
  { state := { s0 with comp_features := comp }
    calls := [ExtCall.querySrc srcAttr, ExtCall.queryTgt tgtAttr]
    ok := true }

/-- `FeatureImporter.import_features`: compare, insert the unmatched
source records into the target (renamed through the effective map, with
the source oid field stripped), then delete the migrated records and the
stale matched records from the source.  `insertOk` models whether the
remote batch insert succeeds; when it raises, the exception propagates
and nothing after the insert call runs. -/
def import_features (imp : FeatureImporter) (srcUid tgtUid : String)
    (insertOk : Bool) : StepResult :=
  let r := comp_features_run imp srcUid tgtUid
  let s1 := r.state
  let attrMap := get_attr_map s1
  let srcOidField := s1.src_feat_layer.objectIdField
  let addFeatures := s1.comp_features.src.unmatched
  let oldFeatures := s1.comp_features.src.matched
  if addFeatures.length > 0 then
    let addOids := addFeatures.map (fun f => f.get srcOidField)
    let transformed := addFeatures.map
      (fun f => feature_remove_attributes [srcOidField]
        (feature_replace_attributes attrMap f))
    if insertOk then
      let s2 := { s1 with
        tgt_feat_layer := add_features_batch s1.tgt_feat_layer transformed }
      let s3 := { s2 with
        src_feat_layer := delete_features s2.src_feat_layer addOids }
      let calls1 := r.calls ++
        [ExtCall.addTgt transformed, ExtCall.deleteSrc addOids]
      if oldFeatures.length > 0 then
        let oldOids := oldFeatures.map (fun f => f.get srcOidField)
        { state := { s3 with
            src_feat_layer := delete_features s3.src_feat_layer oldOids }
          calls := calls1 ++ [ExtCall.deleteSrc oldOids]
          ok := true }
      else
        { state := s3, calls := calls1, ok := true }
    else
      { state := s1
        calls := r.calls ++ [ExtCall.addTgt transformed]
        ok := false }
  else
    if oldFeatures.length > 0 then
      let oldOids := oldFeatures.map (fun f => f.get srcOidField)
      { state := { s1 with
          src_feat_layer := delete_features s1.src_feat_layer oldOids }
        calls := r.calls ++ [ExtCall.deleteSrc oldOids]
        ok := true }
    else
      { state := s1, calls := r.calls, ok := true }


section DictLemmas

variable {α β : Type} [DecidableEq α]

theorem dlookup_nil (k : α) : dlookup ([] : List (α × β)) k = none := rfl

theorem dlookup_cons (k2 : α) (v : β) (rest : List (α × β)) (k : α) :
    dlookup ((k2, v) :: rest) k = if k2 = k then some v else dlookup rest k :=
  rfl

theorem dlookup_append (l1 l2 : List (α × β)) (k : α) :
    dlookup (l1 ++ l2) k = ((dlookup l1 k).or (dlookup l2 k)) := by
  induction l1 with
  | nil => simp [dlookup_nil]
  | cons p rest ih =>
      obtain ⟨k2, v⟩ := p
      by_cases h : k2 = k
      · simp [dlookup_cons, h]
      · simp [dlookup_cons, h, ih]

theorem dlookup_eq_none_of_not_mem (d : List (α × β)) (k : α)
    (h : k ∉ d.map Prod.fst) : dlookup d k = none := by
  induction d with
  | nil => rfl
  | cons p rest ih =>
      obtain ⟨k2, v2⟩ := p
      simp only [List.map_cons, List.mem_cons, not_or] at h
      rw [dlookup_cons, if_neg (fun he => h.1 he.symm), ih h.2]

theorem dlookup_replace_self (d : List (α × β)) (k : α) (v : β)
    (h : k ∈ d.map Prod.fst) :
    dlookup (d.map (fun p => if p.1 = k then (k, v) else p)) k = some v := by
  induction d with
  | nil => simp at h
  | cons p rest ih =>
      obtain ⟨k2, v2⟩ := p
      simp only [List.map_cons]
      by_cases hk : k2 = k
      · have hc : ((k2, v2) : α × β).1 = k := hk
        rw [if_pos hc, dlookup_cons, if_pos rfl]
      · have hc : ¬ ((k2, v2) : α × β).1 = k := hk
        rw [if_neg hc, dlookup_cons, if_neg hk]
        apply ih
        simp only [List.map_cons, List.mem_cons] at h
        rcases h with h | h
        · exact absurd h.symm hk
        · exact h

theorem dlookup_replace_ne (d : List (α × β)) (k k' : α) (v : β)
    (h : k' ≠ k) :
    dlookup (d.map (fun p => if p.1 = k then (k, v) else p)) k' =
      dlookup d k' := by
  induction d with
  | nil => rfl
  | cons p rest ih =>
      obtain ⟨k2, v2⟩ := p
      simp only [List.map_cons]
      by_cases hk : k2 = k
      · have hc : ((k2, v2) : α × β).1 = k := hk
        rw [if_pos hc, dlookup_cons, dlookup_cons]
        have h1 : ¬ k = k' := fun he => h he.symm
        have h2 : ¬ k2 = k' := fun he => h (he ▸ hk.symm ▸ rfl)
        rw [if_neg h1, if_neg (hk ▸ h1), ih]
      · have hc : ¬ ((k2, v2) : α × β).1 = k := hk
        rw [if_neg hc, dlookup_cons, dlookup_cons]
        by_cases hk' : k2 = k'
        · rw [if_pos hk', if_pos hk']
        · rw [if_neg hk', if_neg hk', ih]

theorem dlookup_dinsert_self (d : List (α × β)) (k : α) (v : β) :
    dlookup (dinsert d k v) k = some v := by
  unfold dinsert
  by_cases h : k ∈ d.map Prod.fst
  · rw [if_pos h]
    exact dlookup_replace_self d k v h
  · rw [if_neg h, dlookup_append, dlookup_eq_none_of_not_mem d k h]
    simp [dlookup_cons]

theorem dlookup_dinsert_ne (d : List (α × β)) (k k' : α) (v : β)
    (h : k' ≠ k) :
    dlookup (dinsert d k v) k' = dlookup d k' := by
  unfold dinsert
  by_cases hm : k ∈ d.map Prod.fst
  · rw [if_pos hm]
    exact dlookup_replace_ne d k k' v h
  · rw [if_neg hm, dlookup_append, dlookup_cons, dlookup_nil]
    have h1 : ¬ k = k' := fun he => h he.symm
    rw [if_neg h1]
    cases hd : dlookup d k' <;> rfl

theorem mem_keys_dinsert (d : List (α × β)) (k k' : α) (v : β) :
    k' ∈ (dinsert d k v).map Prod.fst ↔
      k' = k ∨ k' ∈ d.map Prod.fst := by
  unfold dinsert
  by_cases h : k ∈ d.map Prod.fst
  · rw [if_pos h]
    constructor
    · intro hm
      rcases List.mem_map.mp hm with ⟨q, hq, hfst⟩
      rcases List.mem_map.mp hq with ⟨p, hp, hrepl⟩
      by_cases hpk : p.1 = k
      · left
        rw [← hrepl, if_pos hpk] at hfst
        exact hfst.symm
      · right
        rw [← hrepl, if_neg hpk] at hfst
        exact List.mem_map.mpr ⟨p, hp, hfst⟩
    · intro hm
      rcases hm with hm | hm
      · rcases List.mem_map.mp h with ⟨p, hp, hfst⟩
        refine List.mem_map.mpr ⟨(k, v), ?_, hm.symm ▸ rfl⟩
        refine List.mem_map.mpr ⟨p, hp, ?_⟩
        rw [if_pos hfst]
      · rcases List.mem_map.mp hm with ⟨p, hp, hfst⟩
        by_cases hpk : p.1 = k
        · refine List.mem_map.mpr ⟨(k, v), ?_, (hfst ▸ hpk : k' = k).symm ▸ rfl⟩
          refine List.mem_map.mpr ⟨p, hp, ?_⟩
          rw [if_pos hpk]
        · refine List.mem_map.mpr ⟨p, ?_, hfst⟩
          refine List.mem_map.mpr ⟨p, hp, ?_⟩
          rw [if_neg hpk]
  · rw [if_neg h, List.map_append]
    simp only [List.map_cons, List.map_nil, List.mem_append, List.mem_cons,
      List.not_mem_nil, or_false]
    tauto

theorem keys_nodup_dinsert (d : List (α × β)) (k : α) (v : β)
    (h : (d.map Prod.fst).Nodup) :
    ((dinsert d k v).map Prod.fst).Nodup := by
  unfold dinsert
  by_cases hm : k ∈ d.map Prod.fst
  · rw [if_pos hm]
    have hkeys : (d.map (fun p => if p.1 = k then (k, v) else p)).map Prod.fst
        = d.map Prod.fst := by
      rw [List.map_map]
      apply List.map_congr_left
      intro p _
      by_cases hpk : p.1 = k
      · simp only [Function.comp_apply, if_pos hpk]
        exact hpk.symm
      · simp only [Function.comp_apply, if_neg hpk]
    rw [hkeys]
    exact h
  · rw [if_neg hm, List.map_append]
    simp only [List.map_cons, List.map_nil]
    refine List.Nodup.append h (List.nodup_singleton k) ?_
    intro x hx hk
    simp only [List.mem_singleton] at hk
    exact hm (hk ▸ hx)

end DictLemmas

section FilterLemmas

theorem length_filter_add_length_filter_not {γ : Type} (l : List γ)
    (p : γ → Bool) :
    (l.filter p).length + (l.filter (fun a => !(p a))).length = l.length := by
  induction l with
  | nil => rfl
  | cons a rest ih =>
      rw [List.filter_cons, List.filter_cons]
      cases h : p a
      · rw [if_neg (by simp [h]), if_pos (by simp [h])]
        simp only [List.length_cons, Nat.add_succ, ih]
      · rw [if_pos (by simp [h]), if_neg (by simp [h])]
        simp only [List.length_cons, Nat.succ_add, ih]

theorem dlookup_filter_of_key_sat {β : Type} (attrs : List (String × β))
    (q : String × β → Bool) (name : String)
    (hq : ∀ v : β, q (name, v) = true) :
    dlookup (attrs.filter q) name = dlookup attrs name := by
  induction attrs with
  | nil => rfl
  | cons p rest ih =>
      obtain ⟨k, v⟩ := p
      rw [List.filter_cons]
      by_cases hk : k = name
      · subst hk
        rw [if_pos (hq v), dlookup_cons, if_pos rfl, dlookup_cons, if_pos rfl]
      · by_cases hqp : q (k, v) = true
        · rw [if_pos hqp, dlookup_cons, if_neg hk, dlookup_cons, if_neg hk, ih]
        · rw [if_neg hqp, dlookup_cons, if_neg hk, ih]

theorem restrictFeature_get (f : Feature) (fields : List String)
    (name : String) (h : name ∈ fields) :
    (restrictFeature f fields).get name = f.get name := by
  unfold restrictFeature Feature.get
  simp only
  rw [dlookup_filter_of_key_sat]
  intro v
  simpa using h

end FilterLemmas

section MergeLemmas

theorem dlookup_merge_dicts_of_not_mem (a b : List (String × String))
    (k : String) (h : k ∉ b.map Prod.fst) :
    dlookup (merge_dicts a b) k = dlookup a k := by
  induction b generalizing a with
  | nil => rfl
  | cons p rest ih =>
      obtain ⟨k2, v2⟩ := p
      simp only [List.map_cons, List.mem_cons, not_or] at h
      show dlookup (merge_dicts (dinsert a k2 v2) rest) k = dlookup a k
      rw [ih (dinsert a k2 v2) h.2,
        dlookup_dinsert_ne a k2 k v2 (fun he => h.1 he)]

theorem dlookup_merge_dicts_of_mem (a b : List (String × String))
    (k : String) (v : String) (hb : (b.map Prod.fst).Nodup)
    (h : dlookup b k = some v) :
    dlookup (merge_dicts a b) k = some v := by
  induction b generalizing a with
  | nil => simp [dlookup_nil] at h
  | cons p rest ih =>
      obtain ⟨k2, v2⟩ := p
      simp only [List.map_cons, List.nodup_cons] at hb
      show dlookup (merge_dicts (dinsert a k2 v2) rest) k = some v
      by_cases hk : k2 = k
      · subst hk
        rw [dlookup_cons, if_pos rfl] at h
        have hkr : k2 ∉ rest.map Prod.fst := hb.1
        rw [dlookup_merge_dicts_of_not_mem (dinsert a k2 v2) rest k2 hkr,
          dlookup_dinsert_self]
        exact h
      · rw [dlookup_cons, if_neg hk] at h
        exact ih (dinsert a k2 v2) hb.2 h

theorem mem_keys_merge_dicts (a b : List (String × String)) (k : String) :
    k ∈ (merge_dicts a b).map Prod.fst ↔
      k ∈ a.map Prod.fst ∨ k ∈ b.map Prod.fst := by
  induction b generalizing a with
  | nil => simp [merge_dicts]
  | cons p rest ih =>
      obtain ⟨k2, v2⟩ := p
      show k ∈ (merge_dicts (dinsert a k2 v2) rest).map Prod.fst ↔ _
      rw [ih (dinsert a k2 v2), mem_keys_dinsert]
      simp only [List.map_cons, List.mem_cons]
      tauto

end MergeLemmas

section SortLemmas

theorem insertPair_perm (p : String × String) (l : List (String × String)) :
    (insertPair p l).Perm (p :: l) := by
  induction l with
  | nil => exact List.Perm.refl _
  | cons q rest ih =>
      unfold insertPair
      by_cases h : pairLe p q = true
      · rw [if_pos h]
      · rw [if_neg h]
        exact (List.Perm.cons q ih).trans (List.Perm.swap p q rest)

theorem sortPairs_perm (l : List (String × String)) :
    (sortPairs l).Perm l := by
  induction l with
  | nil => exact List.Perm.refl _
  | cons p rest ih =>
      show (insertPair p (sortPairs rest)).Perm (p :: rest)
      exact (insertPair_perm p (sortPairs rest)).trans (List.Perm.cons p ih)

theorem mem_insertPair (p x : String × String) (l : List (String × String)) :
    x ∈ insertPair p l ↔ x = p ∨ x ∈ l := by
  rw [(insertPair_perm p l).mem_iff, List.mem_cons]

theorem charListLt_iff (as bs : List Char) :
    charListLt as bs = true ↔ as < bs := by
  induction as generalizing bs with
  | nil =>
      cases bs with
      | nil =>
          constructor
          · intro h; exact absurd h (by simp [charListLt])
          · intro h; cases h
      | cons b bs =>
          constructor
          · intro _; exact List.Lex.nil
          · intro _; simp [charListLt]
  | cons a as ih =>
      cases bs with
      | nil =>
          constructor
          · intro h; simp [charListLt] at h
          · intro h; cases h
      | cons b bs =>
          constructor
          · intro h
            by_cases hab : a < b
            · exact List.Lex.rel hab
            · by_cases hba : b < a
              · rw [charListLt, if_neg hab, if_pos hba] at h
                exact absurd h (by simp)
              · rw [charListLt, if_neg hab, if_neg hba] at h
                have heq : a = b :=
                  le_antisymm (le_of_not_lt hba) (le_of_not_lt hab)
                subst heq
                exact List.Lex.cons ((ih bs).mp h)
          · intro h
            cases h with
            | rel hab => simp [charListLt, hab]
            | cons htl =>
                rw [charListLt, if_neg (lt_irrefl a), if_neg (lt_irrefl a)]
                exact (ih bs).mpr htl

theorem strLt_iff (a b : String) : strLt a b = true ↔ a < b := by
  rw [String.lt_iff_toList_lt]
  exact charListLt_iff a.data b.data

theorem strLe_iff (a b : String) : strLe a b = true ↔ a ≤ b := by
  unfold strLe
  rw [Bool.or_eq_true, strLt_iff, beq_iff_eq, le_iff_lt_or_eq]

theorem pairLe_iff (p q : String × String) :
    pairLe p q = true ↔ (p.1 < q.1 ∨ (p.1 = q.1 ∧ p.2 ≤ q.2)) := by
  unfold pairLe
  rw [Bool.or_eq_true, Bool.and_eq_true, strLt_iff, beq_iff_eq, strLe_iff]

theorem pairLe_total (p q : String × String) (h : pairLe p q = false) :
    pairLe q p = true := by
  rw [pairLe_iff]
  have hn : ¬ (p.1 < q.1 ∨ (p.1 = q.1 ∧ p.2 ≤ q.2)) := by
    rw [← pairLe_iff, h]; simp
  push_neg at hn
  rcases lt_trichotomy p.1 q.1 with hlt | heq | hgt
  · exact absurd hlt hn.1
  · right
    exact ⟨heq.symm, le_of_lt (hn.2 heq)⟩
  · left; exact hgt

theorem pairLe_trans (p q r : String × String) (h1 : pairLe p q = true)
    (h2 : pairLe q r = true) : pairLe p r = true := by
  rw [pairLe_iff] at h1 h2 ⊢
  rcases h1 with h1 | h1 <;> rcases h2 with h2 | h2
  · left; exact lt_trans h1 h2
  · left; exact h2.1 ▸ h1
  · left; exact h1.1 ▸ h2
  · right; exact ⟨h1.1.trans h2.1, le_trans h1.2 h2.2⟩

theorem pairwise_insertPair (p : String × String)
    (l : List (String × String))
    (h : l.Pairwise (fun a b => pairLe a b = true)) :
    (insertPair p l).Pairwise (fun a b => pairLe a b = true) := by
  induction l with
  | nil => simp [insertPair]
  | cons q rest ih =>
      rw [List.pairwise_cons] at h
      unfold insertPair
      by_cases hle : pairLe p q = true
      · rw [if_pos hle]
        rw [List.pairwise_cons]
        constructor
        · intro x hx
          rcases List.mem_cons.mp hx with hx | hx
          · rw [hx]; exact hle
          · exact pairLe_trans p q x hle (h.1 x hx)
        · exact List.pairwise_cons.mpr h
      · rw [if_neg hle]
        rw [List.pairwise_cons]
        constructor
        · intro x hx
          rcases (mem_insertPair p x rest).mp hx with hx | hx
          · rw [hx]
            exact pairLe_total p q (Bool.eq_false_iff.mpr hle)
          · exact h.1 x hx
        · exact ih h.2

theorem sortPairs_pairwise (l : List (String × String)) :
    (sortPairs l).Pairwise (fun a b => pairLe a b = true) := by
  induction l with
  | nil => exact List.Pairwise.nil
  | cons p rest ih => exact pairwise_insertPair p (sortPairs rest) ih

theorem sortPairs_keys_sorted (l : List (String × String)) :
    (sortPairs l).Pairwise (fun a b => a.1 ≤ b.1) := by
  apply List.Pairwise.imp _ (sortPairs_pairwise l)
  intro a b hab
  rw [pairLe_iff] at hab
  rcases hab with hab | hab
  · exact le_of_lt hab
  · exact le_of_eq hab.1

end SortLemmas

section IndexLemmas

theorem find?_append_eq {γ : Type} (l1 l2 : List γ) (p : γ → Bool) :
    (l1 ++ l2).find? p = ((l1.find? p).or (l2.find? p)) := by
  induction l1 with
  | nil => simp
  | cons a rest ih =>
      cases h : p a
      · rw [List.cons_append, List.find?_cons_of_neg _ (by simp [h]),
          List.find?_cons_of_neg _ (by simp [h]), ih]
      · rw [List.cons_append, List.find?_cons_of_pos _ h,
          List.find?_cons_of_pos _ h]
        rfl

theorem build_index_foldl_lookup (fs : List Feature)
    (uidField oidField : String) (u : Value) (d : List (Value × Value)) :
    dlookup (fs.foldl
        (fun d f => dinsert d (f.get uidField) (f.get oidField)) d) u =
      (((fs.reverse.find? (fun f => decide (f.get uidField = u))).map
        (fun f => f.get oidField)).or (dlookup d u)) := by
  induction fs generalizing d with
  | nil => simp
  | cons f rest ih =>
      simp only [List.foldl_cons, List.reverse_cons]
      rw [ih, find?_append_eq]
      cases hfind : rest.reverse.find? (fun f => decide (f.get uidField = u))
      · simp only [Option.map_none', Option.none_or]
        by_cases hu : f.get uidField = u
        · rw [List.find?_cons_of_pos _ (by simp [hu])]
          simp only [Option.map_some']
          rw [← hu, dlookup_dinsert_self]
          rfl
        · rw [List.find?_cons_of_neg _ (by simp [hu]), List.find?_nil]
          simp only [Option.map_none', Option.none_or]
          rw [dlookup_dinsert_ne _ _ _ _ (fun he => hu he.symm)]
      · simp [hfind]

theorem build_feature_index_lookup (fs : List Feature)
    (uidField oidField : String) (u : Value) :
    dlookup (build_feature_index fs uidField oidField) u =
      ((fs.reverse.find? (fun f => decide (f.get uidField = u))).map
        (fun f => f.get oidField)) := by
  unfold build_feature_index
  rw [build_index_foldl_lookup]
  simp [dlookup_nil]

theorem build_index_foldl_keys_nodup (fs : List Feature)
    (uidField oidField : String) (d : List (Value × Value))
    (hd : (d.map Prod.fst).Nodup) :
    (((fs.foldl
        (fun d f => dinsert d (f.get uidField) (f.get oidField)) d)).map
      Prod.fst).Nodup := by
  induction fs generalizing d with
  | nil => exact hd
  | cons f rest ih =>
      simp only [List.foldl_cons]
      exact ih _ (keys_nodup_dinsert d _ _ hd)

theorem build_feature_index_keys_nodup (fs : List Feature)
    (uidField oidField : String) :
    ((build_feature_index fs uidField oidField).map Prod.fst).Nodup :=
  build_index_foldl_keys_nodup fs uidField oidField [] (by simp)

end IndexLemmas

section RunLemmas

theorem comp_features_run_src_layer (imp : FeatureImporter) (su tu : String) :
    (comp_features_run imp su tu).state.src_feat_layer =
      imp.src_feat_layer := rfl

theorem comp_features_run_tgt_layer (imp : FeatureImporter) (su tu : String) :
    (comp_features_run imp su tu).state.tgt_feat_layer =
      imp.tgt_feat_layer := rfl

theorem comp_features_run_comp (imp : FeatureImporter) (su tu : String) :
    (comp_features_run imp su tu).state.comp_features =
      comp_features_of
        (query_features_batch imp.src_feat_layer
          ((sortPairs (get_attr_map imp)).map Prod.fst))
        (query_features_batch imp.tgt_feat_layer
          ((sortPairs (get_attr_map imp)).map Prod.snd))
        su tu imp.src_feat_layer.objectIdField
        imp.tgt_feat_layer.objectIdField := rfl

theorem comp_features_run_calls (imp : FeatureImporter) (su tu : String) :
    (comp_features_run imp su tu).calls =
      [ExtCall.querySrc ((sortPairs (get_attr_map imp)).map Prod.fst),
       ExtCall.queryTgt ((sortPairs (get_attr_map imp)).map Prod.snd)] := rfl

theorem delete_features_nil (layer : LayerState) :
    delete_features layer [] = layer := by
  simp [delete_features]

theorem mem_queried_classified (srcFs tgtFs : List Feature)
    (su tu so tOid : String) (f : Feature) (hf : f ∈ srcFs) :
    f ∈ (comp_features_of srcFs tgtFs su tu so tOid).src.matched ∨
      f ∈ (comp_features_of srcFs tgtFs su tu so tOid).src.unmatched := by
  unfold comp_features_of
  simp only [List.mem_filter]
  by_cases h : dcontains (build_feature_index tgtFs tu tOid) (f.get su) = true
  · left; exact ⟨hf, h⟩
  · right; exact ⟨hf, by simp [h]⟩

theorem import_features_src_layer_eq (imp : FeatureImporter) (su tu : String) :
    (import_features imp su tu true).state.src_feat_layer =
      delete_features
        (delete_features imp.src_feat_layer
          (((comp_features_run imp su tu).state.comp_features.src.unmatched).map
            (fun f => f.get imp.src_feat_layer.objectIdField)))
        (((comp_features_run imp su tu).state.comp_features.src.matched).map
          (fun f => f.get imp.src_feat_layer.objectIdField)) := by
  by_cases h1 :
      (comp_features_run imp su tu).state.comp_features.src.unmatched.length > 0
  · by_cases h2 :
        (comp_features_run imp su tu).state.comp_features.src.matched.length > 0
    · simp [import_features, h1, h2, comp_features_run_src_layer]
    · have hnil : (comp_features_run imp su tu).state.comp_features.src.matched
          = [] :=
        List.length_eq_zero.mp (Nat.eq_zero_of_not_pos h2)
      simp [import_features, h1, h2, hnil, delete_features_nil,
        comp_features_run_src_layer]
  · have hnil : (comp_features_run imp su tu).state.comp_features.src.unmatched
        = [] :=
      List.length_eq_zero.mp (Nat.eq_zero_of_not_pos h1)
    by_cases h2 :
        (comp_features_run imp su tu).state.comp_features.src.matched.length > 0
    · simp [import_features, h1, h2, hnil, delete_features_nil,
        comp_features_run_src_layer]
    · have hnil2 : (comp_features_run imp su tu).state.comp_features.src.matched
          = [] :=
        List.length_eq_zero.mp (Nat.eq_zero_of_not_pos h2)
      simp [import_features, h1, h2, hnil, hnil2, delete_features_nil,
        comp_features_run_src_layer]

end RunLemmas

section DrainLemmas

theorem import_features_drains_source (imp : FeatureImporter)
    (su tu : String) :
    (import_features imp su tu true).state.src_feat_layer.features = [] := by
  rw [import_features_src_layer_eq]
  simp only [delete_features]
  rw [List.filter_eq_nil_iff]
  intro f hf
  rcases List.mem_filter.mp hf with ⟨hmem, hp1⟩
  have hclass := mem_queried_classified
    (query_features_batch imp.src_feat_layer
      ((sortPairs (get_attr_map imp)).map Prod.fst))
    (query_features_batch imp.tgt_feat_layer
      ((sortPairs (get_attr_map imp)).map Prod.snd))
    su tu imp.src_feat_layer.objectIdField imp.tgt_feat_layer.objectIdField
    (restrictFeature f ((sortPairs (get_attr_map imp)).map Prod.fst ++
      [imp.src_feat_layer.objectIdField]))
    (List.mem_map_of_mem _ hmem)
  have hoid : (restrictFeature f ((sortPairs (get_attr_map imp)).map Prod.fst ++
      [imp.src_feat_layer.objectIdField])).get imp.src_feat_layer.objectIdField
      = f.get imp.src_feat_layer.objectIdField :=
    restrictFeature_get f _ _ (List.mem_append_right _ (List.mem_singleton.mpr rfl))
  rw [← comp_features_run_comp] at hclass
  rcases hclass with hcl | hcl
  · -- matched: the oid is among the stale oids, so the second delete removes f
    have hmem2 : f.get imp.src_feat_layer.objectIdField ∈
        ((comp_features_run imp su tu).state.comp_features.src.matched).map
          (fun g => g.get imp.src_feat_layer.objectIdField) :=
      List.mem_map.mpr ⟨_, hcl, hoid⟩
    simp [hmem2]
  · -- unmatched: the oid is among the migrated oids, contradicting survival
    exfalso
    have : f.get imp.src_feat_layer.objectIdField ∈
        ((comp_features_run imp su tu).state.comp_features.src.unmatched).map
          (fun g => g.get imp.src_feat_layer.objectIdField) :=
      List.mem_map.mpr ⟨_, hcl, hoid⟩
    simp only [Bool.not_eq_true', decide_eq_false_iff_not] at hp1
    exact hp1 this

theorem import_features_on_empty_source (imp : FeatureImporter)
    (su tu : String) (h : imp.src_feat_layer.features = []) (ok : Bool) :
    import_features imp su tu ok = comp_features_run imp su tu := by
  have hq : ∀ fls : List String,
      query_features_batch imp.src_feat_layer fls = [] := by
    intro fls
    simp [query_features_batch, h]
  have hu : (comp_features_run imp su tu).state.comp_features.src.unmatched
      = [] := by
    rw [comp_features_run_comp]
    unfold comp_features_of
    simp [hq]
  have hm : (comp_features_run imp su tu).state.comp_features.src.matched
      = [] := by
    rw [comp_features_run_comp]
    unfold comp_features_of
    simp [hq]
  simp only [import_features, hu, hm, List.length_nil, gt_iff_lt,
    lt_self_iff_false, if_false]
  rfl

end DrainLemmas

/-- C1: for every importer state and uid-field choice, running
import_features twice with the same uid fields and no intervening
external changes leaves the target record set unchanged after the second
run, and the source ends with zero records whose uid value appears in the
target index. -/
theorem import_features_idempotent (imp : FeatureImporter) (su tu : String) :
    (import_features (import_features imp su tu true).state su tu
        true).state.tgt_feat_layer.features =
      (import_features imp su tu true).state.tgt_feat_layer.features ∧
    ((import_features (import_features imp su tu true).state su tu
        true).state.src_feat_layer.features.filter
      (fun f => dcontains
        (import_features (import_features imp su tu true).state su tu
          true).state.comp_features.tgt.index (f.get su))).length = 0 := by
  have h1 := import_features_drains_source imp su tu
  rw [import_features_on_empty_source _ su tu h1 true]
  refine ⟨?_, ?_⟩
  · rw [comp_features_run_tgt_layer]
  · have h2 : (comp_features_run (import_features imp su tu true).state su
        tu).state.src_feat_layer.features = [] := by
      rw [comp_features_run_src_layer, h1]
    rw [h2]
    rfl

/-- C2: for every pair of fetched record sets and every uid-field choice,
each fetched source record lands in exactly one of the source matched and
unmatched lists, and likewise on the target side; on each side the
matched count plus the unmatched count equals the fetched count. -/
theorem comp_partition_complete (srcFs tgtFs : List Feature)
    (su tu so tOid : String) :
    (∀ f ∈ srcFs,
      (f ∈ (comp_features_of srcFs tgtFs su tu so tOid).src.matched ∧
        f ∉ (comp_features_of srcFs tgtFs su tu so tOid).src.unmatched) ∨
      (f ∉ (comp_features_of srcFs tgtFs su tu so tOid).src.matched ∧
        f ∈ (comp_features_of srcFs tgtFs su tu so tOid).src.unmatched)) ∧
    ((comp_features_of srcFs tgtFs su tu so tOid).src.matched.length +
      (comp_features_of srcFs tgtFs su tu so tOid).src.unmatched.length
      = srcFs.length) ∧
    (∀ f ∈ tgtFs,
      (f ∈ (comp_features_of srcFs tgtFs su tu so tOid).tgt.matched ∧
        f ∉ (comp_features_of srcFs tgtFs su tu so tOid).tgt.unmatched) ∨
      (f ∉ (comp_features_of srcFs tgtFs su tu so tOid).tgt.matched ∧
        f ∈ (comp_features_of srcFs tgtFs su tu so tOid).tgt.unmatched)) ∧
    ((comp_features_of srcFs tgtFs su tu so tOid).tgt.matched.length +
      (comp_features_of srcFs tgtFs su tu so tOid).tgt.unmatched.length
      = tgtFs.length) := by
  unfold comp_features_of
  simp only
  refine ⟨?_, ?_, ?_, ?_⟩
  · intro f hf
    by_cases h : dcontains (build_feature_index tgtFs tu tOid) (f.get su)
        = true
    · left
      refine ⟨List.mem_filter.mpr ⟨hf, h⟩, fun hmem => ?_⟩
      rcases List.mem_filter.mp hmem with ⟨_, hneg⟩
      simp [h] at hneg
    · right
      refine ⟨fun hmem => ?_, List.mem_filter.mpr ⟨hf, by simp [h]⟩⟩
      rcases List.mem_filter.mp hmem with ⟨_, hpos⟩
      exact h hpos
  · exact length_filter_add_length_filter_not srcFs _
  · intro f hf
    by_cases h : dcontains (build_feature_index srcFs su so) (f.get tu)
        = true
    · left
      refine ⟨List.mem_filter.mpr ⟨hf, h⟩, fun hmem => ?_⟩
      rcases List.mem_filter.mp hmem with ⟨_, hneg⟩
      simp [h] at hneg
    · right
      refine ⟨fun hmem => ?_, List.mem_filter.mpr ⟨hf, by simp [h]⟩⟩
      rcases List.mem_filter.mp hmem with ⟨_, hpos⟩
      exact h hpos
  · exact length_filter_add_length_filter_not tgtFs _

/-- C9: the comparison discards any previously held comparison state
before computing a fresh one: its result is the same for any two importer
states that differ only in the held comparison state, so the outcome
never depends on a previous run. -/
theorem comp_features_run_ignores_previous (imp : FeatureImporter)
    (c : CompFeatures) (su tu : String) :
    comp_features_run { imp with comp_features := c } su tu =
      comp_features_run imp su tu := rfl

/-- C3: whenever the batch insert of unmatched source records raises (so
the run aborts with an error), no source-side delete call is issued in
that same invocation: deletion is attempted only after the insert
succeeds. -/
theorem no_premature_source_deletion (imp : FeatureImporter)
    (su tu : String) (h : (import_features imp su tu false).ok = false) :
    ∀ oids : List Value,
      ExtCall.deleteSrc oids ∉ (import_features imp su tu false).calls := by
  intro oids
  by_cases h1 : (comp_features_run imp su
      tu).state.comp_features.src.unmatched.length > 0
  · simp [import_features, h1, comp_features_run_calls]
  · exfalso
    by_cases h2 : (comp_features_run imp su
        tu).state.comp_features.src.matched.length > 0
    · simp [import_features, h1, h2] at h
    · simp [import_features, h1, h2] at h

/-- C4: the comparison step queries the source store for the sorted keys
of the effective attribute map plus the source internal-id field, and the
target store for the values of the effective map in the same key-sort
order plus the target internal-id field: the two query calls carry the
sorted key and value lists (a key-ascending permutation of the effective
map), and the records fetched are restricted to those fields plus the
respective object-id field. -/
theorem comp_query_field_lists (imp : FeatureImporter) (su tu : String) :
    ((comp_features_run imp su tu).calls =
      [ExtCall.querySrc ((sortPairs (get_attr_map imp)).map Prod.fst),
       ExtCall.queryTgt ((sortPairs (get_attr_map imp)).map Prod.snd)]) ∧
    (sortPairs (get_attr_map imp)).Perm (get_attr_map imp) ∧
    (sortPairs (get_attr_map imp)).Pairwise (fun a b => a.1 ≤ b.1) ∧
    (query_features_batch imp.src_feat_layer
        ((sortPairs (get_attr_map imp)).map Prod.fst) =
      imp.src_feat_layer.features.map (fun f => restrictFeature f
        ((sortPairs (get_attr_map imp)).map Prod.fst ++
          [imp.src_feat_layer.objectIdField]))) ∧
    (query_features_batch imp.tgt_feat_layer
        ((sortPairs (get_attr_map imp)).map Prod.snd) =
      imp.tgt_feat_layer.features.map (fun f => restrictFeature f
        ((sortPairs (get_attr_map imp)).map Prod.snd ++
          [imp.tgt_feat_layer.objectIdField]))) :=
  ⟨rfl, sortPairs_perm _, sortPairs_keys_sorted _, rfl, rfl⟩

theorem get_attr_map_comp_run (imp : FeatureImporter) (su tu : String) :
    get_attr_map (comp_features_run imp su tu).state = get_attr_map imp :=
  rfl

/-- C6: when the unmatched source record set is non-empty, the records
inserted into the target are exactly the unmatched source records with
attribute keys renamed through the effective map and then the source
internal-id field stripped, the insert call precedes the source delete
call, and the deleted ids are captured from the untransformed records. -/
theorem import_transforms_before_insert (imp : FeatureImporter)
    (su tu : String)
    (h : (comp_features_run imp su
      tu).state.comp_features.src.unmatched.length > 0) :
    (import_features imp su tu true).calls =
      [ExtCall.querySrc ((sortPairs (get_attr_map imp)).map Prod.fst),
       ExtCall.queryTgt ((sortPairs (get_attr_map imp)).map Prod.snd),
       ExtCall.addTgt
         (((comp_features_run imp su
             tu).state.comp_features.src.unmatched).map
           (fun f => feature_remove_attributes
             [imp.src_feat_layer.objectIdField]
             (feature_replace_attributes (get_attr_map imp) f))),
       ExtCall.deleteSrc
         (((comp_features_run imp su
             tu).state.comp_features.src.unmatched).map
           (fun f => f.get imp.src_feat_layer.objectIdField))] ++
      (if (comp_features_run imp su
          tu).state.comp_features.src.matched.length > 0 then
        [ExtCall.deleteSrc
          (((comp_features_run imp su
              tu).state.comp_features.src.matched).map
            (fun f => f.get imp.src_feat_layer.objectIdField))]
      else []) := by
  by_cases h2 : (comp_features_run imp su
      tu).state.comp_features.src.matched.length > 0
  · simp [import_features, h, h2, comp_features_run_calls,
      comp_features_run_src_layer, get_attr_map_comp_run]
  · simp [import_features, h, h2, comp_features_run_calls,
      comp_features_run_src_layer, get_attr_map_comp_run]

theorem dlookup_is_some_of_mem {α β : Type} [DecidableEq α]
    (d : List (α × β)) (k : α) (h : k ∈ d.map Prod.fst) :
    ∃ v, dlookup d k = some v := by
  induction d with
  | nil => simp at h
  | cons p rest ih =>
      obtain ⟨k2, v2⟩ := p
      by_cases hk : k2 = k
      · exact ⟨v2, by rw [dlookup_cons, if_pos hk]⟩
      · simp only [List.map_cons, List.mem_cons] at h
        rcases h with h | h
        · exact absurd h.symm hk
        · rcases ih h with ⟨v, hv⟩
          exact ⟨v, by rw [dlookup_cons, if_neg hk, hv]⟩

/-- C5: in the effective attribute map, a key present in the custom map
takes the custom value (overriding the auto map), a key present only in
the auto map keeps the auto value, and the key set of the effective map
is the union of the two key sets. -/
theorem attr_map_custom_precedence (imp : FeatureImporter) (k : String)
    (hb : (imp.cust_attr_map.map Prod.fst).Nodup) :
    (dcontains imp.cust_attr_map k = true →
      dlookup (get_attr_map imp) k = dlookup imp.cust_attr_map k) ∧
    (dcontains imp.cust_attr_map k = false →
      dlookup (get_attr_map imp) k = dlookup imp.auto_attr_map k) ∧
    (dcontains (get_attr_map imp) k =
      (dcontains imp.auto_attr_map k || dcontains imp.cust_attr_map k)) := by
  refine ⟨?_, ?_, ?_⟩
  · intro h
    have hmem : k ∈ imp.cust_attr_map.map Prod.fst := by
      simpa [dcontains] using h
    rcases dlookup_is_some_of_mem _ _ hmem with ⟨v, hv⟩
    rw [hv]
    exact dlookup_merge_dicts_of_mem _ _ _ _ hb hv
  · intro h
    have hmem : k ∉ imp.cust_attr_map.map Prod.fst := by
      simpa [dcontains] using h
    exact dlookup_merge_dicts_of_not_mem _ _ _ hmem
  · unfold dcontains get_attr_map
    have hiff := mem_keys_merge_dicts imp.auto_attr_map imp.cust_attr_map k
    by_cases ha : k ∈ imp.auto_attr_map.map Prod.fst
    · rw [decide_eq_true (hiff.mpr (Or.inl ha)), decide_eq_true ha]
      rfl
    · by_cases hc : k ∈ imp.cust_attr_map.map Prod.fst
      · rw [decide_eq_true (hiff.mpr (Or.inr hc)), decide_eq_false ha,
          decide_eq_true hc]
        rfl
      · rw [decide_eq_false (fun hm => (hiff.mp hm).elim ha hc),
          decide_eq_false ha, decide_eq_false hc]
        rfl

/-- C7: when several records on one side share a uid value, the index for
that side keeps exactly one internal id per uid value, namely the last
one written during index construction, while matched and unmatched
classification is computed per record by membership in the other side
index, so same-side records sharing a uid are all classified alike. -/
theorem duplicate_uid_policy (srcFs tgtFs : List Feature)
    (su tu so tOid : String) (u : Value) :
    (((comp_features_of srcFs tgtFs su tu so tOid).src.index.map
        Prod.fst).Nodup) ∧
    (dlookup (comp_features_of srcFs tgtFs su tu so tOid).src.index u =
      ((srcFs.reverse.find? (fun f => decide (f.get su = u))).map
        (fun f => f.get so))) ∧
    (∀ f g, f ∈ srcFs → g ∈ srcFs → f.get su = g.get su →
      ((f ∈ (comp_features_of srcFs tgtFs su tu so tOid).src.matched ↔
        g ∈ (comp_features_of srcFs tgtFs su tu so tOid).src.matched) ∧
       (f ∈ (comp_features_of srcFs tgtFs su tu so tOid).src.unmatched ↔
        g ∈ (comp_features_of srcFs tgtFs su tu so tOid).src.unmatched))) ∧
    (((comp_features_of srcFs tgtFs su tu so tOid).tgt.index.map
        Prod.fst).Nodup) ∧
    (dlookup (comp_features_of srcFs tgtFs su tu so tOid).tgt.index u =
      ((tgtFs.reverse.find? (fun f => decide (f.get tu = u))).map
        (fun f => f.get tOid))) ∧
    (∀ f g, f ∈ tgtFs → g ∈ tgtFs → f.get tu = g.get tu →
      ((f ∈ (comp_features_of srcFs tgtFs su tu so tOid).tgt.matched ↔
        g ∈ (comp_features_of srcFs tgtFs su tu so tOid).tgt.matched) ∧
       (f ∈ (comp_features_of srcFs tgtFs su tu so tOid).tgt.unmatched ↔
        g ∈ (comp_features_of srcFs tgtFs su tu so tOid).tgt.unmatched))) := by
  refine ⟨?_, ?_, ?_, ?_, ?_, ?_⟩
  · show ((build_feature_index srcFs su so).map Prod.fst).Nodup
    exact build_feature_index_keys_nodup srcFs su so
  · show dlookup (build_feature_index srcFs su so) u = _
    exact build_feature_index_lookup srcFs su so u
  · intro f g hf hg hequ
    unfold comp_features_of
    simp only [List.mem_filter]
    constructor
    · constructor
      · rintro ⟨_, hx⟩
        exact ⟨hg, hequ ▸ hx⟩
      · rintro ⟨_, hx⟩
        exact ⟨hf, hequ.symm ▸ hx⟩
    · constructor
      · rintro ⟨_, hx⟩
        exact ⟨hg, hequ ▸ hx⟩
      · rintro ⟨_, hx⟩
        exact ⟨hf, hequ.symm ▸ hx⟩
  · show ((build_feature_index tgtFs tu tOid).map Prod.fst).Nodup
    exact build_feature_index_keys_nodup tgtFs tu tOid
  · show dlookup (build_feature_index tgtFs tu tOid) u = _
    exact build_feature_index_lookup tgtFs tu tOid u
  · intro f g hf hg hequ
    unfold comp_features_of
    simp only [List.mem_filter]
    constructor
    · constructor
      · rintro ⟨_, hx⟩
        exact ⟨hg, hequ ▸ hx⟩
      · rintro ⟨_, hx⟩
        exact ⟨hf, hequ.symm ▸ hx⟩
    · constructor
      · rintro ⟨_, hx⟩
        exact ⟨hg, hequ ▸ hx⟩
      · rintro ⟨_, hx⟩
        exact ⟨hf, hequ.symm ▸ hx⟩

/-- C10: any constructor argument for the custom attribute mapper that is
not an AttributeMapper instance (None, a plain dictionary, or any other
value) is silently replaced by a fresh empty mapper; no error is raised
and the result is the same as passing the default None. -/
theorem init_nonmapper_silently_ignored (src tgt : LayerState)
    (a : MapperArg) (h : isAttributeMapperInst a = false) :
    (feature_importer_init src tgt a =
      feature_importer_init src tgt MapperArg.noneArg) ∧
    ((feature_importer_init src tgt a).cust_attr_map = []) := by
  cases a with
  | mapperArg m => simp [isAttributeMapperInst] at h
  | noneArg => exact ⟨rfl, rfl⟩
  | dictArg d => exact ⟨rfl, rfl⟩
  | otherArg s => exact ⟨rfl, rfl⟩

/-- C8 counterexample: a custom attribute map that references the field
"bogus", absent from both schemas, is not rejected at construction time:
the importer initializes normally, retains the invalid mapping, and the
subsequent comparison issues a remote query whose field list carries the
absent field, so no ConfigurationError-class failure happens before a
remote call. -/
theorem config_error_counterexample :
    ((feature_importer_init
        ⟨["f1"], "OID", [], 0⟩ ⟨["f1"], "OID2", [], 0⟩
        (MapperArg.mapperArg [("bogus", "nope")])).cust_attr_map
      = [("bogus", "nope")]) ∧
    ExtCall.querySrc ["bogus", "f1"] ∈
      (comp_features_run (feature_importer_init
        ⟨["f1"], "OID", [], 0⟩ ⟨["f1"], "OID2", [], 0⟩
        (MapperArg.mapperArg [("bogus", "nope")]))
        "f1" "f1").calls := by
  constructor
  · rfl
  · decide

/-- C8 amended: a custom attribute map referencing a field absent from
the relevant schema is not detected locally: the constructor accepts it
unchanged and the comparison step passes every custom-map key, absent or
not, to the remote source query, so any failure surfaces as a remote
operation error rather than a local configuration failure. -/
theorem invalid_custom_map_not_rejected (src tgt : LayerState)
    (m : List (String × String)) (su tu k : String)
    (hk : k ∈ m.map Prod.fst) :
    ((feature_importer_init src tgt (MapperArg.mapperArg m)).cust_attr_map
      = m) ∧
    (∃ flds, ExtCall.querySrc flds ∈
      (comp_features_run (feature_importer_init src tgt
        (MapperArg.mapperArg m)) su tu).calls ∧ k ∈ flds) := by
  refine ⟨rfl, ⟨(sortPairs (get_attr_map (feature_importer_init src tgt
    (MapperArg.mapperArg m)))).map Prod.fst, ?_, ?_⟩⟩
  · rw [comp_features_run_calls]
    simp
  · have h1 : k ∈ (get_attr_map (feature_importer_init src tgt
        (MapperArg.mapperArg m))).map Prod.fst :=
      (mem_keys_merge_dicts _ _ k).mpr (Or.inr hk)
    rcases List.mem_map.mp h1 with ⟨p, hp, hfst⟩
    exact List.mem_map.mpr
      ⟨p, (sortPairs_perm _).mem_iff.mpr hp, hfst⟩

/-- Witness for the partition theorem at a one-record source and an empty
target. -/
theorem comp_partition_complete_witness :
    ((⟨[("uid", Value.intV 1)]⟩ ∈
        (comp_features_of [⟨[("uid", Value.intV 1)]⟩] [] "uid" "uid" "o"
          "O").src.matched ∧
      (⟨[("uid", Value.intV 1)]⟩ : Feature) ∉
        (comp_features_of [⟨[("uid", Value.intV 1)]⟩] [] "uid" "uid" "o"
          "O").src.unmatched) ∨
     ((⟨[("uid", Value.intV 1)]⟩ : Feature) ∉
        (comp_features_of [⟨[("uid", Value.intV 1)]⟩] [] "uid" "uid" "o"
          "O").src.matched ∧
      ⟨[("uid", Value.intV 1)]⟩ ∈
        (comp_features_of [⟨[("uid", Value.intV 1)]⟩] [] "uid" "uid" "o"
          "O").src.unmatched)) ∧
    ((comp_features_of [⟨[("uid", Value.intV 1)]⟩] [] "uid" "uid" "o"
        "O").src.matched.length +
      (comp_features_of [⟨[("uid", Value.intV 1)]⟩] [] "uid" "uid" "o"
        "O").src.unmatched.length = 1) := by
  have h := comp_partition_complete [⟨[("uid", Value.intV 1)]⟩] []
    "uid" "uid" "o" "O"
  exact ⟨h.1 _ (by decide), h.2.1⟩

/-- Witness for the no-premature-deletion theorem at a concrete importer
whose insert batch fails. -/
theorem no_premature_source_deletion_witness :
    ExtCall.deleteSrc [Value.intV 10] ∉
      (import_features (feature_importer_init
        ⟨["uid"], "OBJECTID",
          [⟨[("uid", Value.intV 1), ("OBJECTID", Value.intV 10)]⟩], 11⟩
        ⟨["uid"], "OID", [], 1⟩ MapperArg.noneArg) "uid" "uid" false).calls :=
  no_premature_source_deletion _ "uid" "uid" (by decide) [Value.intV 10]

/-- Witness for the map-precedence theorem at a concrete importer whose
custom map overrides one auto mapping. -/
theorem attr_map_custom_precedence_witness :
    dlookup (get_attr_map (feature_importer_init
        ⟨["a", "c"], "OID", [], 0⟩ ⟨["a", "c"], "OID2", [], 0⟩
        (MapperArg.mapperArg [("a", "b")]))) "a" = some "b" := by
  have h := attr_map_custom_precedence (feature_importer_init
    ⟨["a", "c"], "OID", [], 0⟩ ⟨["a", "c"], "OID2", [], 0⟩
    (MapperArg.mapperArg [("a", "b")])) "a" (by decide)
  rw [h.1 (by decide)]
  decide

/-- Witness for the transform-before-insert theorem at a concrete
importer with one unmatched source record. -/
theorem import_transforms_before_insert_witness :
    (import_features (feature_importer_init
        ⟨["uid"], "OBJECTID",
          [⟨[("uid", Value.intV 1), ("OBJECTID", Value.intV 10)]⟩], 11⟩
        ⟨["uid"], "OID", [], 1⟩ MapperArg.noneArg) "uid" "uid" true).calls =
      [ExtCall.querySrc ["uid"], ExtCall.queryTgt ["uid"],
       ExtCall.addTgt [⟨[("uid", Value.intV 1)]⟩],
       ExtCall.deleteSrc [Value.intV 10]] := by
  have h := import_transforms_before_insert (feature_importer_init
    ⟨["uid"], "OBJECTID",
      [⟨[("uid", Value.intV 1), ("OBJECTID", Value.intV 10)]⟩], 11⟩
    ⟨["uid"], "OID", [], 1⟩ MapperArg.noneArg) "uid" "uid" (by decide)
  rw [h]
  decide

/-- Witness for the duplicate-uid theorem at a source holding two records
with the same uid value and an empty target. -/
theorem duplicate_uid_policy_witness :
    (dlookup (comp_features_of
        [⟨[("uid", Value.intV 5), ("oid", Value.intV 1)]⟩,
         ⟨[("uid", Value.intV 5), ("oid", Value.intV 2)]⟩] []
        "uid" "uid" "oid" "OID").src.index (Value.intV 5)
      = some (Value.intV 2)) ∧
    ((⟨[("uid", Value.intV 5), ("oid", Value.intV 1)]⟩ : Feature) ∈
        (comp_features_of
          [⟨[("uid", Value.intV 5), ("oid", Value.intV 1)]⟩,
           ⟨[("uid", Value.intV 5), ("oid", Value.intV 2)]⟩] []
          "uid" "uid" "oid" "OID").src.unmatched ↔
      (⟨[("uid", Value.intV 5), ("oid", Value.intV 2)]⟩ : Feature) ∈
        (comp_features_of
          [⟨[("uid", Value.intV 5), ("oid", Value.intV 1)]⟩,
           ⟨[("uid", Value.intV 5), ("oid", Value.intV 2)]⟩] []
          "uid" "uid" "oid" "OID").src.unmatched) := by
  have h := duplicate_uid_policy
    [⟨[("uid", Value.intV 5), ("oid", Value.intV 1)]⟩,
     ⟨[("uid", Value.intV 5), ("oid", Value.intV 2)]⟩] []
    "uid" "uid" "oid" "OID" (Value.intV 5)
  constructor
  · rw [h.2.1]
    decide
  · exact (h.2.2.1 _ _ (by decide) (by decide) (by decide)).2

/-- Witness for the amended configuration claim at the concrete importer
from the counterexample. -/
theorem invalid_custom_map_not_rejected_witness :
    ((feature_importer_init ⟨["f1"], "OID", [], 0⟩ ⟨["f1"], "OID2", [], 0⟩
        (MapperArg.mapperArg [("bogus", "nope")])).cust_attr_map
      = [("bogus", "nope")]) ∧
    (∃ flds, ExtCall.querySrc flds ∈
      (comp_features_run (feature_importer_init ⟨["f1"], "OID", [], 0⟩
        ⟨["f1"], "OID2", [], 0⟩ (MapperArg.mapperArg [("bogus", "nope")]))
        "f1" "f1").calls ∧ "bogus" ∈ flds) :=
  invalid_custom_map_not_rejected _ _ _ "f1" "f1" "bogus" (by decide)

/-- Witness for the silent-substitution theorem at a plain dictionary
argument. -/
theorem init_nonmapper_silently_ignored_witness :
    (feature_importer_init ⟨[], "OID", [], 0⟩ ⟨[], "OID2", [], 0⟩
      (MapperArg.dictArg [("a", "b")])).cust_attr_map = [] :=
  (init_nonmapper_silently_ignored ⟨[], "OID", [], 0⟩ ⟨[], "OID2", [], 0⟩
    (MapperArg.dictArg [("a", "b")]) (by decide)).2
